import Mathlib

/-!
Shallow embedding of the CoD4X17a server virtual filesystem layer
(src/filesystem.c).  C strings are lists of characters, machine integers are
`Int`/`Nat`, native collaborators (libc stream primitives, the unzip codec,
and declarations that live in headers not present under src/) are modelled as
oracle parameters or, where so marked, from the specification.  Fatal
diagnostics (Com_Error) are modelled as a distinguished result constructor.
-/

/-- C strings are modelled as lists of characters (no interior NUL byte). -/
abbrev CStr := List Char

/-- The canonical path separator of the unix build (q_platform.h). -/
def PATH_SEP : Char := '/'

/-- ASCII lower-casing of one character, as performed by the Q_stricmp family. -/
def q_lower (c : Char) : Char :=
  if 'A' ≤ c ∧ c ≤ 'Z' then Char.ofNat (c.toNat + 32) else c

/-- Modelled from the spec: `Q_stricmp` (q_shared.c, not under src/) is the
standard case-insensitive string comparison; filesystem.c only branches on
whether its result is zero, so it is embedded as a case-insensitive equality
test that is `true` exactly when `Q_stricmp` would return 0. -/
def Q_stricmpEq (a b : CStr) : Bool :=
  a.map q_lower == b.map q_lower

/-- Modelled from the spec: `Q_stricmpn` limited to the first `n` characters;
`true` exactly when `Q_stricmpn` would return 0. -/
def Q_stricmpnEq (a b : CStr) (n : Nat) : Bool :=
  (a.take n).map q_lower == (b.take n).map q_lower

/-- beginsWith hay pat: pat is a leading subword of hay (strncmp-style test). -/
def beginsWith : CStr → CStr → Bool
  | _, [] => true
  | [], _ :: _ => false
  | h :: t, n :: ns => h == n && beginsWith t ns

/-- hasSub hay needle: model of `strstr(hay, needle) != NULL`. -/
def hasSub (hay needle : CStr) : Bool :=
  beginsWith hay needle ||
    match hay with
    | [] => false
    | _ :: t => hasSub t needle

/-- Result of a filesystem routine: either a fatal Com_Error diagnostic
aborting the process, or a normal return value. -/
inductive FsResult (α : Type) where
  | fatal
  | ok (a : α)
deriving DecidableEq, Repr

/-! ## FS_CreatePath (src/filesystem.c:370) -/

/-- Observable outcome of FS_CreatePath: the qboolean it returns, the
arguments passed to Sys_Mkdir in order, and whether a fatal diagnostic was
raised (the body of FS_CreatePath contains no Com_Error call, so `fatal` is
`false` on every path through the function). -/
structure CreatePathOut where
  result : Bool
  mkdirCalls : List CStr
  fatal : Bool
deriving DecidableEq, Repr

/-- The directory loop of FS_CreatePath: for every PATH_SEP strictly after the
first character, the separator is temporarily replaced by NUL and Sys_Mkdir
receives the prefix before it.  `done` is the already-scanned prefix. -/
def createPathLoop (done : CStr) : CStr → List CStr
  | [] => []
  | c :: cs =>
    if c = PATH_SEP then done :: createPathLoop (done ++ [c]) cs
    else createPathLoop (done ++ [c]) cs

/-- FS_CreatePath: refuses a path containing ".." or "::" with a console
warning, returning qtrue without invoking Sys_Mkdir; otherwise issues a
Sys_Mkdir for every intermediate directory and returns qfalse. -/
def FS_CreatePath (ospath : CStr) : CreatePathOut :=
  if hasSub ospath ['.', '.'] || hasSub ospath [':', ':'] then
    { result := true, mkdirCalls := [], fatal := false }
  else
    { result := false
      mkdirCalls :=
        match ospath with
        | [] => []
        | c :: cs => createPathLoop [c] cs
      fatal := false }

/-- C1: for every OS path containing a ".." segment or a "::" sequence,
FS_CreatePath invokes Sys_Mkdir on nothing, raises no fatal error, and
returns the quiet-refusal qboolean (qtrue) after only printing a warning. -/
theorem C1_createPath_traversal_refused_quietly (p : CStr)
    (h : hasSub p ['.', '.'] = true ∨ hasSub p [':', ':'] = true) :
    (FS_CreatePath p).mkdirCalls = [] ∧
    (FS_CreatePath p).fatal = false ∧
    (FS_CreatePath p).result = true := by
  rcases h with h | h <;> simp [FS_CreatePath, h]

/-- C1 witness: a concrete traversal path exercising the theorem. -/
theorem C1_createPath_traversal_refused_quietly_witness :
    (hasSub ((r"/home/user/../../etc/passwd").toList) ['.', '.'] = true ∨
      hasSub ((r"/home/user/../../etc/passwd").toList) [':', ':'] = true) ∧
    (FS_CreatePath ((r"/home/user/../../etc/passwd").toList)).mkdirCalls = [] ∧
    (FS_CreatePath ((r"/home/user/../../etc/passwd").toList)).fatal = false ∧
    (FS_CreatePath ((r"/home/user/../../etc/passwd").toList)).result = true :=
  ⟨Or.inl (by decide),
    C1_createPath_traversal_refused_quietly _ (Or.inl (by decide))⟩

/-! ## FS_VerifyPak (src/filesystem.c:1429) -/

/-- The verification-relevant identity of a mounted pack, per searchpath_t's
pack pointer (pakGamename, pakBasename). -/
structure pack_t where
  pakGamename : CStr
  pakBasename : CStr
deriving DecidableEq, Repr

/-- The test string FS_VerifyPak builds for one mounted pack:
"{pakGamename}/{pakBasename}.iwd". -/
def pakTestString (p : pack_t) : CStr :=
  p.pakGamename ++ '/' :: (p.pakBasename ++ ['.', 'i', 'w', 'd'])

/-- The code after FS_VerifyPak's searchpath loop: the per-mod configuration
pack "{fs_game}/mod.ff", then the "usermaps/" prefix branch with its ".." and
";" rejections, otherwise qfalse. -/
def verifyPakTail (fs_game pak : CStr) : Bool :=
  if Q_stricmpEq (fs_game ++ ('/' :: ['m', 'o', 'd', '.', 'f', 'f'])) pak then true
  else if Q_stricmpnEq ['u', 's', 'e', 'r', 'm', 'a', 'p', 's', '/'] pak 9 then
    if hasSub pak ['.', '.'] || hasSub pak [';'] then false else true
  else false

/-- FS_VerifyPak: walks the live searchpath list (entries whose pack pointer
is null are directories and are skipped), comparing the requested name with
Q_stricmp against each mounted pack's "{game}/{base}.iwd" string, then
against "{fs_game}/mod.ff", then applies the "usermaps/" prefix rule. -/
def FS_VerifyPak (fs_game pak : CStr) : List (Option pack_t) → Bool
  | [] => verifyPakTail fs_game pak
  | none :: rest => FS_VerifyPak fs_game pak rest
  | some p :: rest =>
    if Q_stricmpEq (pakTestString p) pak then true
    else FS_VerifyPak fs_game pak rest

/-- The acceptance predicate exactly as the claim words it (for refutation):
case-SENSITIVE match of a mounted pack string, or case-SENSITIVE equality
with "{fs_game}/mod.ff", or the literal prefix "usermaps/" with no ".." and
no ";". -/
def claimedVerifyPak (fs_game pak : CStr) (searchpaths : List (Option pack_t)) : Bool :=
  searchpaths.any (fun s =>
    match s with
    | some p => pakTestString p == pak
    | none => false) ||
  (fs_game ++ ('/' :: ['m', 'o', 'd', '.', 'f', 'f'])) == pak ||
  (beginsWith pak ['u', 's', 'e', 'r', 'm', 'a', 'p', 's', '/'] &&
    !hasSub pak ['.', '.'] && !hasSub pak [';'])

/-- C2 counterexample: with no pack mounted and fs_game = "mods/x", the name
"MODS/X/MOD.FF" differs in case from "mods/x/mod.ff", so the claim's
case-sensitive predicate rejects it, yet FS_VerifyPak accepts it because the
code compares with the case-insensitive Q_stricmp. -/
theorem C2_verifyPak_case_counterexample :
    FS_VerifyPak ((r"mods/x").toList) ((r"MODS/X/MOD.FF").toList) [] = true ∧
    claimedVerifyPak ((r"mods/x").toList) ((r"MODS/X/MOD.FF").toList) [] = false := by
  decide

/-- The acceptance predicate with the single correction the counterexample
forces: every comparison is case-insensitive, as Q_stricmp/Q_stricmpn are. -/
def amendedVerifyPak (fs_game pak : CStr) (searchpaths : List (Option pack_t)) : Bool :=
  searchpaths.any (fun s =>
    match s with
    | some p => Q_stricmpEq (pakTestString p) pak
    | none => false) ||
  Q_stricmpEq (fs_game ++ ('/' :: ['m', 'o', 'd', '.', 'f', 'f'])) pak ||
  (Q_stricmpnEq ['u', 's', 'e', 'r', 'm', 'a', 'p', 's', '/'] pak 9 &&
    !hasSub pak ['.', '.'] && !hasSub pak [';'])

/-- C2 (amended): FS_VerifyPak returns true exactly when the name matches,
case-insensitively, "{pakGamename}/{pakBasename}.iwd" of some pack in the
live search-path list, or "{fs_game}/mod.ff", or begins (case-insensitively)
with "usermaps/" and contains neither ".." nor ";"; otherwise false. -/
theorem C2_verifyPak_amended (fs_game pak : CStr) (searchpaths : List (Option pack_t)) :
    FS_VerifyPak fs_game pak searchpaths = amendedVerifyPak fs_game pak searchpaths := by
  induction searchpaths with
  | nil =>
    simp only [FS_VerifyPak, amendedVerifyPak, verifyPakTail, List.any_nil, Bool.false_or]
    by_cases h1 : Q_stricmpEq (fs_game ++ ('/' :: ['m', 'o', 'd', '.', 'f', 'f'])) pak
    · simp [h1]
    · by_cases h2 : Q_stricmpnEq ['u', 's', 'e', 'r', 'm', 'a', 'p', 's', '/'] pak 9
      · by_cases h3 : hasSub pak ['.', '.'] <;> by_cases h4 : hasSub pak [';'] <;>
          simp [h1, h2, h3, h4]
      · simp [h1, h2]
  | cons s rest ih =>
    cases s with
    | none => simpa [FS_VerifyPak, amendedVerifyPak] using ih
    | some p =>
      by_cases h : Q_stricmpEq (pakTestString p) pak
      · simp [FS_VerifyPak, amendedVerifyPak, h]
      · simp only [FS_VerifyPak, amendedVerifyPak, List.any_cons, h, if_false,
          Bool.false_or] at ih ⊢
        exact ih

/-- C2 witness: the amended equivalence evaluated at a concrete mounted pack
and an accepted case-variant name. -/
theorem C2_verifyPak_amended_witness :
    FS_VerifyPak ((r"mods/x").toList) ((r"Main/Iwd_00.IWD").toList)
        [some ⟨(r"main").toList, (r"iwd_00").toList⟩] =
      amendedVerifyPak ((r"mods/x").toList) ((r"Main/Iwd_00.IWD").toList)
        [some ⟨(r"main").toList, (r"iwd_00").toList⟩] ∧
    FS_VerifyPak ((r"mods/x").toList) ((r"Main/Iwd_00.IWD").toList)
        [some ⟨(r"main").toList, (r"iwd_00").toList⟩] = true :=
  ⟨C2_verifyPak_amended _ _ _, by decide⟩

/-! ## FS_HandleForFile and FS_FileForHandle (src/filesystem.c:248, 260)

The fsh array and the MAX_FILE_HANDLES constant live in the header
filesystem.h, which is not under src/.  Modelled from the spec: the handle
table is a pool whose occupancy is a predicate on slot indices, `acquire`
scans linearly from slot 1, and the scan bound maxFileHandles is kept as a
parameter (the source loop is `for (i = 1; i < MAX_FILE_HANDLES; i++)`, so a
pool of capacity N corresponds to maxFileHandles = N + 1). -/

/-- The scan loop of FS_HandleForFile: starting at slot `i` with `fuel`
iterations left, return the first slot whose stream pointer is NULL. -/
def scanFreeHandle (occ : Nat → Bool) : Nat → Nat → Option Nat
  | _, 0 => none
  | i, fuel + 1 => if occ i = false then some i else scanFreeHandle occ (i + 1) fuel

/-- FS_HandleForFile: linear scan from slot 1 below maxFileHandles for the
first empty slot; `none` models the Com_Error "none free" fatal path. -/
def FS_HandleForFile (maxFileHandles : Nat) (occ : Nat → Bool) : Option Nat :=
  scanFreeHandle occ 1 (maxFileHandles - 1)

/-- Occupancy of the handle table after opening k files from empty: exactly
the slots 1..k hold open streams. -/
def occUpTo (k : Nat) : Nat → Bool := fun i => decide (1 ≤ i ∧ i ≤ k)

/-- Sequential opens: state of the table after n acquire-and-mark steps,
`none` once an acquire has hit the fatal exhaustion path. -/
def openSeq (maxFileHandles : Nat) : Nat → Option (Nat → Bool)
  | 0 => some (fun _ => false)
  | n + 1 =>
    match openSeq maxFileHandles n with
    | none => none
    | some occ =>
      match FS_HandleForFile maxFileHandles occ with
      | none => none
      | some h => some (fun i => occ i || i == h)

theorem scanFreeHandle_hits (k : Nat) :
    ∀ (fuel j : Nat), 1 ≤ j → j ≤ k + 1 → k + 2 ≤ j + fuel →
      scanFreeHandle (occUpTo k) j fuel = some (k + 1) := by
  intro fuel
  induction fuel with
  | zero => intro j _ h2 h3; omega
  | succ n ih =>
    intro j h1 h2 h3
    by_cases hj : j ≤ k
    · have hocc : occUpTo k j = true := by simp [occUpTo]; omega
      simp only [scanFreeHandle, hocc]
      exact ih (j + 1) (by omega) (by omega) (by omega)
    · have hj' : j = k + 1 := by omega
      subst hj'
      have hocc : occUpTo k (k + 1) = false := by
        simp only [occUpTo, decide_eq_false_iff_not]; omega
      simp [scanFreeHandle, hocc]

theorem scanFreeHandle_exhausted (N : Nat) :
    ∀ (fuel j : Nat), 1 ≤ j → j + fuel ≤ N + 1 →
      scanFreeHandle (occUpTo N) j fuel = none := by
  intro fuel
  induction fuel with
  | zero => intro j _ _; rfl
  | succ n ih =>
    intro j h1 h2
    have hocc : occUpTo N j = true := by simp [occUpTo]; omega
    simp only [scanFreeHandle, hocc]
    exact ih (j + 1) (by omega) (by omega)

theorem handleForFile_at_fill (N k : Nat) (hk : k < N) :
    FS_HandleForFile (N + 1) (occUpTo k) = some (k + 1) := by
  unfold FS_HandleForFile
  have : N + 1 - 1 = N := by omega
  rw [this]
  exact scanFreeHandle_hits k N 1 (by omega) (by omega) (by omega)

theorem handleForFile_full (N : Nat) :
    FS_HandleForFile (N + 1) (occUpTo N) = none := by
  unfold FS_HandleForFile
  have : N + 1 - 1 = N := by omega
  rw [this]
  exact scanFreeHandle_exhausted N N 1 (by omega) (by omega)

theorem openSeq_state (N : Nat) :
    ∀ k, k ≤ N → openSeq (N + 1) k = some (occUpTo k) := by
  intro k
  induction k with
  | zero =>
    intro _
    simp only [openSeq]
    congr 1
    funext i
    have : ¬(1 ≤ i ∧ i ≤ 0) := by omega
    simp only [occUpTo, this]
    simp
    try omega
  | succ n ih =>
    intro hn
    have hstate := ih (by omega)
    simp only [openSeq, hstate, handleForFile_at_fill N n (by omega)]
    congr 1
    funext i
    by_cases hi : i = n + 1
    · simp [occUpTo, hi]
    · have : (i == n + 1) = false := by simp [hi]
      simp only [occUpTo, this, Bool.or_false]
      by_cases h1 : 1 ≤ i ∧ i ≤ n
      · have h2 : 1 ≤ i ∧ i ≤ n + 1 := ⟨h1.1, by omega⟩
        simp [h1, h2]
      · have h2 : ¬(1 ≤ i ∧ i ≤ n + 1) := by omega
        simp [h1, h2]

/-- C3: with the scan bound maxFileHandles = N + 1 (pool capacity N, slots
1..N), starting from an empty table the first N sequential acquisitions all
succeed, the k-th (0-based fill k) returning slot k + 1, and the (N + 1)-th
acquisition is the fatal "none free" exhaustion path — never earlier. -/
theorem C3_handle_pool_exhaustion (N : Nat) :
    (∀ k, k ≤ N → openSeq (N + 1) k = some (occUpTo k)) ∧
    (∀ k, k < N → FS_HandleForFile (N + 1) (occUpTo k) = some (k + 1)) ∧
    FS_HandleForFile (N + 1) (occUpTo N) = none :=
  ⟨openSeq_state N, fun k hk => handleForFile_at_fill N k hk, handleForFile_full N⟩

/-- C3 witness: pool capacity 64 — the 64th open still succeeds (slot 64) and
the 65th acquire is the fatal exhaustion path. -/
theorem C3_handle_pool_exhaustion_witness :
    FS_HandleForFile 65 (occUpTo 63) = some 64 ∧
    FS_HandleForFile 65 (occUpTo 64) = none :=
  ⟨(C3_handle_pool_exhaustion 64).2.1 63 (by omega),
    (C3_handle_pool_exhaustion 64).2.2⟩

/-- FS_FileForHandle: bounds-check `f < 0 || f > MAX_FILE_HANDLES`, then the
NULL-slot check; both failures are Com_Error (fatal).  The fsh array's
declaration is not under src/; the table is modelled from the spec as a map
from slot index to the optional open stream. -/
def FS_FileForHandle (maxFileHandles : Nat) (fsh : Nat → Option Unit) (f : Int) :
    FsResult Unit :=
  if f < 0 ∨ f > (maxFileHandles : Int) then .fatal
  else
    match fsh f.toNat with
    | none => .fatal
    | some s => .ok s

/-- C8: under the table invariant that only the acquirable slots
1..maxFileHandles-1 ever hold a stream (acquire scans exactly that range and
slot 0 is never returned), every handle that is not a valid slot index, and
every handle whose slot is empty, makes FS_FileForHandle raise a fatal error;
it never returns a stream for such a handle. -/
theorem C8_fileForHandle_invalid_fatal (maxFileHandles : Nat) (fsh : Nat → Option Unit)
    (f : Int)
    (hinv : ∀ i, ¬(1 ≤ i ∧ i < maxFileHandles) → fsh i = none)
    (hbad : ¬(1 ≤ f ∧ f < (maxFileHandles : Int)) ∨ fsh f.toNat = none) :
    FS_FileForHandle maxFileHandles fsh f = .fatal := by
  unfold FS_FileForHandle
  by_cases hr : f < 0 ∨ f > (maxFileHandles : Int)
  · simp [hr]
  · have hnone : fsh f.toNat = none := by
      rcases hbad with hbad | hbad
      · exact hinv f.toNat (by omega)
      · exact hbad
    simp [hr, hnone]

/-- C8 witness: with an empty table of bound 64, the out-of-range handle 70,
the boundary handle 64 (not an acquirable slot), and the empty slot 3 are all
fatal. -/
theorem C8_fileForHandle_invalid_fatal_witness :
    FS_FileForHandle 64 (fun _ => none) 70 = .fatal ∧
    FS_FileForHandle 64 (fun _ => none) 64 = .fatal ∧
    FS_FileForHandle 64 (fun _ => none) 3 = .fatal :=
  ⟨C8_fileForHandle_invalid_fatal 64 _ 70 (fun _ _ => rfl) (Or.inl (by omega)),
    C8_fileForHandle_invalid_fatal 64 _ 64 (fun _ _ => rfl) (Or.inl (by omega)),
    C8_fileForHandle_invalid_fatal 64 _ 3 (fun _ _ => rfl) (Or.inr rfl)⟩

/-! ## FS_Read (src/filesystem.c:1040) and FS_Write (src/filesystem.c:1116)

The native fread/fwrite collaborators are modelled as an oracle script: the
list of per-call transfer counts the C stream returns (a nonnegative count,
0 for a stalled transfer, or -1, the error code the source tests for). -/

/-- Sum of an oracle script's transfer counts. -/
def sumI (s : List Int) : Int := s.foldr (· + ·) 0

/-- A script segment of strictly positive (progressing) transfer counts. -/
def allPos (s : List Int) : Prop := ∀ r ∈ s, 0 < r

instance (s : List Int) : Decidable (allPos s) :=
  List.decidableBAll _ s

theorem sumI_cons (a : Int) (l : List Int) : sumI (a :: l) = a + sumI l := rfl

theorem sumI_append (l m : List Int) : sumI (l ++ m) = sumI l + sumI m := by
  induction l with
  | nil => simp [sumI]
  | cons a l ih => simp only [List.cons_append, sumI_cons, ih]; ring

theorem sumI_nonneg (l : List Int) (h : allPos l) : 0 ≤ sumI l := by
  induction l with
  | nil => simp [sumI]
  | cons a l ih =>
    have h1 := h a (List.mem_cons_self a l)
    have h2 := ih (fun x hx => h x (List.mem_cons_of_mem a hx))
    rw [sumI_cons]; omega

/-- Outcome of the partial-read loop: a fatal Com_Error, a returned byte
count, or exhaustion of the oracle script before the loop finished (used only
to keep the embedding total; no theorem relies on it). -/
inductive ReadOutcome where
  | fatal
  | ok (n : Int)
  | incomplete
deriving DecidableEq, Repr

/-- The plain-file branch of FS_Read: `remaining = len; tries = 0;` then loop
while remaining is nonzero: a zero-byte fread is tolerated once (tries flips)
and retried, a second zero-byte fread returns `len - remaining`, a -1 result
is Com_Error (fatal), and a positive count advances the transfer. -/
def fsReadLoop (len : Int) : Int → Bool → List Int → ReadOutcome
  | remaining, tries, script =>
    if remaining = 0 then .ok len
    else
      match script with
      | [] => .incomplete
      | r :: rest =>
        if r = 0 then
          if tries then .ok (len - remaining)
          else fsReadLoop len remaining true rest
        else if r = -1 then .fatal
        else fsReadLoop len (remaining - r) tries rest

theorem fsReadLoop_nil (len remaining : Int) (tries : Bool) :
    fsReadLoop len remaining tries [] =
      if remaining = 0 then .ok len else .incomplete := rfl

theorem fsReadLoop_cons (len remaining : Int) (tries : Bool) (r : Int) (rest : List Int) :
    fsReadLoop len remaining tries (r :: rest) =
      if remaining = 0 then .ok len
      else if r = 0 then
        (if tries then .ok (len - remaining) else fsReadLoop len remaining true rest)
      else if r = -1 then .fatal
      else fsReadLoop len (remaining - r) tries rest := rfl

/-- FS_Read: fails fast when fs_searchpaths is unset, returns 0 for the null
handle, runs the partial-read loop for a plain-file handle, and for a
zip-backed handle delegates to the codec (whose returned count is the
`zipReadCount` oracle). -/
def FS_Read (initialized : Bool) (f : Nat) (zipFile : Bool) (zipReadCount : Int)
    (len : Int) (script : List Int) : ReadOutcome :=
  if initialized = false then .fatal
  else if f = 0 then .ok 0
  else if zipFile = false then fsReadLoop len len false script
  else .ok zipReadCount

theorem FS_Read_plain (f : Nat) (hf : f ≠ 0) (zr len : Int) (script : List Int) :
    FS_Read true f false zr len script = fsReadLoop len len false script := by
  simp [FS_Read, hf]

theorem fsReadLoop_run (len : Int) (p : List Int) :
    ∀ (remaining : Int) (tries : Bool) (s : List Int),
      allPos p → sumI p < remaining →
      fsReadLoop len remaining tries (p ++ s) =
        fsReadLoop len (remaining - sumI p) tries s := by
  induction p with
  | nil =>
    intro remaining tries s _ _
    simp [sumI]
  | cons r p ih =>
    intro remaining tries s hpos hsum
    have hr : 0 < r := hpos r (List.mem_cons_self _ _)
    have hps : allPos p := fun x hx => hpos x (List.mem_cons_of_mem _ hx)
    have hnn : 0 ≤ sumI p := sumI_nonneg p hps
    rw [sumI_cons] at hsum
    rw [List.cons_append, fsReadLoop_cons]
    have h0 : ¬(remaining = 0) := by omega
    have h1 : ¬(r = 0) := by omega
    have h2 : ¬(r = -1) := by omega
    simp only [h0, h1, h2, if_false]
    rw [ih (remaining - r) tries s hps (by omega), sumI_cons]
    congr 1
    ring

theorem fsReadLoop_fin (len : Int) (q : List Int) :
    ∀ (remaining : Int) (tries : Bool) (s : List Int),
      allPos q → sumI q = remaining →
      fsReadLoop len remaining tries (q ++ s) = .ok len := by
  induction q with
  | nil =>
    intro remaining tries s _ hsum
    have h0 : remaining = 0 := by rw [← hsum]; rfl
    rw [List.nil_append]
    cases s with
    | nil => rw [fsReadLoop_nil]; simp [h0]
    | cons a t => rw [fsReadLoop_cons]; simp [h0]
  | cons r q ih =>
    intro remaining tries s hpos hsum
    have hr : 0 < r := hpos r (List.mem_cons_self _ _)
    have hq : allPos q := fun x hx => hpos x (List.mem_cons_of_mem _ hx)
    have hnn : 0 ≤ sumI q := sumI_nonneg q hq
    rw [sumI_cons] at hsum
    rw [List.cons_append, fsReadLoop_cons]
    have h0 : ¬(remaining = 0) := by omega
    have h1 : ¬(r = 0) := by omega
    have h2 : ¬(r = -1) := by omega
    simp only [h0, h1, h2, if_false]
    exact ih (remaining - r) tries s hq (by omega)

/-- C4: for a plain-file handle, (i) a script whose only stall is a single
zero-byte read and whose positive reads complete the transfer yields the full
requested length; (ii) a second zero-byte read returns the bytes obtained so
far as a normal short result; (iii) a -1 native result is the fatal error. -/
theorem C4_read_partial_transfer :
    (∀ (f : Nat) (zr len : Int) (p q : List Int), f ≠ 0 →
      allPos p → allPos q → sumI (p ++ q) = len →
      FS_Read true f false zr len (p ++ 0 :: q) = .ok len) ∧
    (∀ (f : Nat) (zr len : Int) (p q rest : List Int), f ≠ 0 →
      allPos p → allPos q → sumI p + sumI q < len →
      FS_Read true f false zr len (p ++ 0 :: (q ++ 0 :: rest)) = .ok (sumI p + sumI q)) ∧
    (∀ (f : Nat) (zr len : Int) (p rest : List Int), f ≠ 0 →
      allPos p → sumI p < len →
      FS_Read true f false zr len (p ++ -1 :: rest) = .fatal) := by
  refine ⟨?_, ?_, ?_⟩
  · intro f zr len p q hf hp hq hsum
    rw [sumI_append] at hsum
    have hqn : 0 ≤ sumI q := sumI_nonneg q hq
    have hpn : 0 ≤ sumI p := sumI_nonneg p hp
    rw [FS_Read_plain f hf]
    rcases eq_or_lt_of_le (show sumI p ≤ len by omega) with heq | hlt
    · exact fsReadLoop_fin len p len false (0 :: q) hp heq
    · rw [fsReadLoop_run len p len false (0 :: q) hp hlt, fsReadLoop_cons]
      have h0 : ¬(len - sumI p = 0) := by omega
      simp only [h0, if_false, if_pos rfl, Bool.false_eq_true]
      have hq2 : sumI q = len - sumI p := by omega
      have hfin := fsReadLoop_fin len q (len - sumI p) true [] hq hq2
      simpa using hfin
  · intro f zr len p q rest hf hp hq hsum
    have hqn : 0 ≤ sumI q := sumI_nonneg q hq
    have hpn : 0 ≤ sumI p := sumI_nonneg p hp
    rw [FS_Read_plain f hf]
    rw [fsReadLoop_run len p len false (0 :: (q ++ 0 :: rest)) hp (by omega),
      fsReadLoop_cons]
    have h0 : ¬(len - sumI p = 0) := by omega
    simp only [h0, if_false, if_pos rfl, Bool.false_eq_true]
    rw [fsReadLoop_run len q (len - sumI p) true (0 :: rest) hq (by omega),
      fsReadLoop_cons]
    have h1 : ¬(len - sumI p - sumI q = 0) := by omega
    simp only [h1, if_false, if_pos rfl, if_true]
    congr 1
    ring
  · intro f zr len p rest hf hp hsum
    rw [FS_Read_plain f hf]
    rw [fsReadLoop_run len p len false (-1 :: rest) hp hsum, fsReadLoop_cons]
    have h0 : ¬(len - sumI p = 0) := by
      have := sumI_nonneg p hp
      omega
    have h1 : ¬((-1 : Int) = 0) := by omega
    simp [h0, h1]

/-- C4 witness: concrete scripts exercising all three parts of the theorem:
one tolerated stall then completion (full length 3), a second stall after 7
bytes of a 10-byte request (short result 7), and a -1 error (fatal). -/
theorem C4_read_partial_transfer_witness :
    FS_Read true 1 false 0 3 [1, 0, 2] = .ok 3 ∧
    FS_Read true 1 false 0 10 [4, 0, 3, 0, 9] = .ok 7 ∧
    FS_Read true 1 false 0 10 [4, -1] = .fatal := by
  refine ⟨?_, ?_, ?_⟩
  · have h := C4_read_partial_transfer.1 1 0 3 [1] [2] (by decide) (by decide)
      (by decide) (by decide)
    simpa using h
  · have h := C4_read_partial_transfer.2.1 1 0 10 [4] [3] [9] (by decide) (by decide)
      (by decide) (by decide)
    simpa using h
  · have h := C4_read_partial_transfer.2.2 1 0 10 [4] [] (by decide) (by decide)
      (by decide)
    simpa using h

/-- Outcome of the partial-write loop: the returned count, whether the
console warning (0 or -1 bytes written) was printed, and whether the trailing
fflush ran (it runs only on the loop's successful exit and only when the
handle's sync flag is set); `incomplete` again only keeps the embedding
total. -/
inductive WriteOutcome where
  | ok (ret : Int) (warned : Bool) (flushed : Bool)
  | incomplete
deriving DecidableEq, Repr

/-- The write loop of FS_Write: a zero-byte fwrite is tolerated once and
retried; a second zero-byte fwrite prints a warning and returns 0; a -1
result prints a warning and returns 0; a positive count advances.  After the
loop, fflush runs when handleSync is set and len is returned. -/
def fsWriteLoop (len : Int) (sync : Bool) : Int → Bool → List Int → WriteOutcome
  | remaining, tries, script =>
    if remaining = 0 then .ok len false sync
    else
      match script with
      | [] => .incomplete
      | w :: rest =>
        if w = 0 then
          if tries then .ok 0 true false
          else fsWriteLoop len sync remaining true rest
        else if w = -1 then .ok 0 true false
        else fsWriteLoop len sync (remaining - w) tries rest

theorem fsWriteLoop_nil (len : Int) (sync : Bool) (remaining : Int) (tries : Bool) :
    fsWriteLoop len sync remaining tries [] =
      if remaining = 0 then .ok len false sync else .incomplete := rfl

theorem fsWriteLoop_cons (len : Int) (sync : Bool) (remaining : Int) (tries : Bool)
    (w : Int) (rest : List Int) :
    fsWriteLoop len sync remaining tries (w :: rest) =
      if remaining = 0 then .ok len false sync
      else if w = 0 then
        (if tries then .ok 0 true false
         else fsWriteLoop len sync remaining true rest)
      else if w = -1 then .ok 0 true false
      else fsWriteLoop len sync (remaining - w) tries rest := rfl

/-- FS_Write: fails fast when fs_searchpaths is unset, returns 0 for the null
handle, resolves the handle through FS_FileForHandle (fatal on misuse), then
runs the partial-write loop. -/
def FS_Write (initialized : Bool) (maxFileHandles : Nat) (fsh : Nat → Option Unit)
    (h : Nat) (sync : Bool) (len : Int) (script : List Int) : FsResult WriteOutcome :=
  if initialized = false then .fatal
  else if h = 0 then .ok (.ok 0 false false)
  else
    match FS_FileForHandle maxFileHandles fsh (h : Int) with
    | .fatal => .fatal
    | .ok _ => .ok (fsWriteLoop len sync len false script)

theorem FS_Write_plain (maxFileHandles : Nat) (fsh : Nat → Option Unit) (h : Nat)
    (hh : h ≠ 0) (hok : FS_FileForHandle maxFileHandles fsh (h : Int) = .ok ())
    (sync : Bool) (len : Int) (script : List Int) :
    FS_Write true maxFileHandles fsh h sync len script =
      .ok (fsWriteLoop len sync len false script) := by
  simp [FS_Write, hh, hok]

theorem fsWriteLoop_run (len : Int) (sync : Bool) (p : List Int) :
    ∀ (remaining : Int) (tries : Bool) (s : List Int),
      allPos p → sumI p < remaining →
      fsWriteLoop len sync remaining tries (p ++ s) =
        fsWriteLoop len sync (remaining - sumI p) tries s := by
  induction p with
  | nil =>
    intro remaining tries s _ _
    simp [sumI]
  | cons w p ih =>
    intro remaining tries s hpos hsum
    have hw : 0 < w := hpos w (List.mem_cons_self _ _)
    have hps : allPos p := fun x hx => hpos x (List.mem_cons_of_mem _ hx)
    have hnn : 0 ≤ sumI p := sumI_nonneg p hps
    rw [sumI_cons] at hsum
    rw [List.cons_append, fsWriteLoop_cons]
    have h0 : ¬(remaining = 0) := by omega
    have h1 : ¬(w = 0) := by omega
    have h2 : ¬(w = -1) := by omega
    simp only [h0, h1, h2, if_false]
    rw [ih (remaining - w) tries s hps (by omega), sumI_cons]
    congr 1
    ring

theorem fsWriteLoop_fin (len : Int) (sync : Bool) (q : List Int) :
    ∀ (remaining : Int) (tries : Bool) (s : List Int),
      allPos q → sumI q = remaining →
      fsWriteLoop len sync remaining tries (q ++ s) = .ok len false sync := by
  induction q with
  | nil =>
    intro remaining tries s _ hsum
    have h0 : remaining = 0 := by rw [← hsum]; rfl
    rw [List.nil_append]
    cases s with
    | nil => rw [fsWriteLoop_nil]; simp [h0]
    | cons a t => rw [fsWriteLoop_cons]; simp [h0]
  | cons w q ih =>
    intro remaining tries s hpos hsum
    have hw : 0 < w := hpos w (List.mem_cons_self _ _)
    have hq : allPos q := fun x hx => hpos x (List.mem_cons_of_mem _ hx)
    have hnn : 0 ≤ sumI q := sumI_nonneg q hq
    rw [sumI_cons] at hsum
    rw [List.cons_append, fsWriteLoop_cons]
    have h0 : ¬(remaining = 0) := by omega
    have h1 : ¬(w = 0) := by omega
    have h2 : ¬(w = -1) := by omega
    simp only [h0, h1, h2, if_false]
    exact ih (remaining - w) tries s hq (by omega)

/-- C5 counterexample: with 5 of 10 bytes already written before the stall
persists (script 5, 0, 0), FS_Write returns 0 with the logged warning — not
the short count 5 of bytes written so far that the claim asserts. -/
theorem C5_write_zero_not_short_counterexample :
    FS_Write true 65 (fun i => if i = 1 then some () else none) 1 false 10 [5, 0, 0] =
      .ok (.ok 0 true false) ∧
    FsResult.ok (WriteOutcome.ok 0 true false) ≠
      FsResult.ok (WriteOutcome.ok (5 : Int) true false) := by
  refine ⟨?_, by decide⟩
  rfl

/-- C5 (amended): FS_Write tolerates one zero-byte native write and retries;
(i) when the transfer then completes through positive counts the full length
is returned without a warning, with an immediate fflush exactly when the
handle's sync flag is set; (ii) a zero-byte result persisting after the one
retry is reported as a return of 0 (not the count written so far) plus a
logged warning, without aborting and without flushing; (iii) a -1 native
error likewise returns 0 plus a logged warning instead of aborting. -/
theorem C5_write_short_amended :
    (∀ (M h : Nat) (fsh : Nat → Option Unit) (sync : Bool) (len : Int) (p q : List Int),
      h ≠ 0 → FS_FileForHandle M fsh (h : Int) = .ok () →
      allPos p → allPos q → sumI (p ++ q) = len →
      FS_Write true M fsh h sync len (p ++ 0 :: q) = .ok (.ok len false sync)) ∧
    (∀ (M h : Nat) (fsh : Nat → Option Unit) (sync : Bool) (len : Int) (p q rest : List Int),
      h ≠ 0 → FS_FileForHandle M fsh (h : Int) = .ok () →
      allPos p → allPos q → sumI p + sumI q < len →
      FS_Write true M fsh h sync len (p ++ 0 :: (q ++ 0 :: rest)) =
        .ok (.ok 0 true false)) ∧
    (∀ (M h : Nat) (fsh : Nat → Option Unit) (sync : Bool) (len : Int) (p rest : List Int),
      h ≠ 0 → FS_FileForHandle M fsh (h : Int) = .ok () →
      allPos p → sumI p < len →
      FS_Write true M fsh h sync len (p ++ -1 :: rest) = .ok (.ok 0 true false)) := by
  refine ⟨?_, ?_, ?_⟩
  · intro M h fsh sync len p q hh hok hp hq hsum
    rw [sumI_append] at hsum
    have hqn : 0 ≤ sumI q := sumI_nonneg q hq
    have hpn : 0 ≤ sumI p := sumI_nonneg p hp
    rw [FS_Write_plain M fsh h hh hok]
    rcases eq_or_lt_of_le (show sumI p ≤ len by omega) with heq | hlt
    · rw [fsWriteLoop_fin len sync p len false (0 :: q) hp heq]
    · rw [fsWriteLoop_run len sync p len false (0 :: q) hp hlt, fsWriteLoop_cons]
      have h0 : ¬(len - sumI p = 0) := by omega
      simp only [h0, if_false, if_pos rfl, Bool.false_eq_true]
      have hq2 : sumI q = len - sumI p := by omega
      have hfin := fsWriteLoop_fin len sync q (len - sumI p) true [] hq hq2
      rw [List.append_nil] at hfin
      rw [hfin]
      simp
  · intro M h fsh sync len p q rest hh hok hp hq hsum
    have hqn : 0 ≤ sumI q := sumI_nonneg q hq
    have hpn : 0 ≤ sumI p := sumI_nonneg p hp
    rw [FS_Write_plain M fsh h hh hok]
    rw [fsWriteLoop_run len sync p len false (0 :: (q ++ 0 :: rest)) hp (by omega),
      fsWriteLoop_cons]
    have h0 : ¬(len - sumI p = 0) := by omega
    simp only [h0, if_false, if_pos rfl, Bool.false_eq_true]
    rw [fsWriteLoop_run len sync q (len - sumI p) true (0 :: rest) hq (by omega),
      fsWriteLoop_cons]
    have h1 : ¬(len - sumI p - sumI q = 0) := by omega
    simp [h1]
  · intro M h fsh sync len p rest hh hok hp hsum
    rw [FS_Write_plain M fsh h hh hok]
    rw [fsWriteLoop_run len sync p len false (-1 :: rest) hp hsum, fsWriteLoop_cons]
    have h0 : ¬(len - sumI p = 0) := by
      have := sumI_nonneg p hp
      omega
    have h1 : ¬((-1 : Int) = 0) := by omega
    simp [h0, h1]

/-- C5 witness: a sync handle completing after one stall flushes and returns
the full length; a persistent stall and a -1 error both return 0 with the
warning. -/
theorem C5_write_short_amended_witness :
    FS_Write true 65 (fun i => if i = 1 then some () else none) 1 true 3 [1, 0, 2] =
      .ok (.ok 3 false true) ∧
    FS_Write true 65 (fun i => if i = 1 then some () else none) 1 true 10 [4, 0, 3, 0, 9] =
      .ok (.ok 0 true false) ∧
    FS_Write true 65 (fun i => if i = 1 then some () else none) 1 false 10 [4, -1] =
      .ok (.ok 0 true false) := by
  refine ⟨?_, ?_, ?_⟩
  · have h := C5_write_short_amended.1 65 1 (fun i => if i = 1 then some () else none)
      true 3 [1] [2] (by decide) (by rfl) (by decide) (by decide) (by decide)
    simpa using h
  · have h := C5_write_short_amended.2.1 65 1 (fun i => if i = 1 then some () else none)
      true 10 [4] [3] [9] (by decide) (by rfl) (by decide) (by decide) (by decide)
    simpa using h
  · have h := C5_write_short_amended.2.2 65 1 (fun i => if i = 1 then some () else none)
      false 10 [4] [] (by decide) (by rfl) (by decide) (by decide)
    simpa using h

/-! ## FS_Seek (src/filesystem.c:1296)

The zip-backed branch.  Modelled from the spec: the unzip codec collaborator
exposes sequential reads of the current entry and reopening the entry at its
captured start offset (unzSetOffset to zipFilePos followed by
unzOpenCurrentFile); an entry is embedded as its byte content together with
the current sequential read position. -/

/-- The scratch-buffer size of the pk3 seek-emulation loop. -/
def PK3_SEEK_BUFFER_SIZE : Nat := 65536

/-- An archive-backed handle: the bytes of the current entry (from its
captured start offset), the sequential read position, and the streamed flag
of the fsh slot. -/
structure ZipHandle where
  content : List Nat
  pos : Nat
  streamed : Bool
deriving DecidableEq, Repr

/-- Modelled from the spec: the codec's sequential current-entry read —
returns up to `len` of the remaining bytes and advances the position. -/
def unzReadCurrentFile (st : ZipHandle) (len : Nat) : List Nat × ZipHandle :=
  let chunk := (st.content.drop st.pos).take len
  (chunk, { st with pos := st.pos + chunk.length })

/-- Modelled from the spec: unzSetOffset to the handle's captured zipFilePos
followed by unzOpenCurrentFile — the entry is reopened at its start. -/
def unzReopenAtStart (st : ZipHandle) : ZipHandle :=
  { st with pos := 0 }

/-- The forward-discard loop of FS_Seek's zip branch: while more than one
scratch buffer remains, read PK3_SEEK_BUFFER_SIZE bytes through FS_Read
(which delegates to the codec for a zip handle), then read the remainder. -/
def zipSeekDiscard (st : ZipHandle) (remainder : Nat) : ZipHandle :=
  if PK3_SEEK_BUFFER_SIZE < remainder then
    zipSeekDiscard (unzReadCurrentFile st PK3_SEEK_BUFFER_SIZE).2
      (remainder - PK3_SEEK_BUFFER_SIZE)
  else (unzReadCurrentFile st remainder).2
termination_by remainder
decreasing_by
  simp only [PK3_SEEK_BUFFER_SIZE] at *
  omega

/-- The seek origins of the boundary API. -/
inductive fsOrigin where
  | seekSet
  | seekCur
  | seekEnd
deriving DecidableEq, Repr

/-- The zip branch of FS_Seek: negative offsets and FS_SEEK_END are
Com_Error (fatal); FS_SEEK_SET reopens the entry at its captured start
offset and falls through to the FS_SEEK_CUR forward-discard loop; the
return value is the requested offset. -/
def fsSeekZipBody (st : ZipHandle) (offset : Int) (origin : fsOrigin) :
    FsResult (Int × ZipHandle) :=
  if offset < 0 ∨ origin = fsOrigin.seekEnd then .fatal
  else
    match origin with
    | .seekSet => .ok (offset, zipSeekDiscard (unzReopenAtStart st) offset.toNat)
    | .seekCur => .ok (offset, zipSeekDiscard st offset.toNat)
    | .seekEnd => .fatal

/-- FS_Seek on a zip-backed handle: fails fast when fs_searchpaths is unset;
for a streamed handle the source clears the flag, seeks recursively, restores
the flag and then runs the seek again on the updated handle state. -/
def FS_Seek_zip (initialized : Bool) (st : ZipHandle) (offset : Int)
    (origin : fsOrigin) : FsResult (Int × ZipHandle) :=
  if initialized = false then .fatal
  else if st.streamed then
    match fsSeekZipBody { st with streamed := false } offset origin with
    | .fatal => .fatal
    | .ok (_, st1) => fsSeekZipBody { st1 with streamed := true } offset origin
  else fsSeekZipBody st offset origin

/-- A loose (plain, non-archive) file with a native stream position. -/
structure PlainFile where
  content : List Nat
  pos : Nat
deriving DecidableEq, Repr

/-- A native fseek to an absolute offset on a loose file. -/
def fseekSet (fl : PlainFile) (offset : Nat) : PlainFile :=
  { fl with pos := offset }

/-- A native fread on a loose regular file: delivers the requested bytes that
remain and advances the position. -/
def fread_file (fl : PlainFile) (len : Nat) : List Nat × PlainFile :=
  let chunk := (fl.content.drop fl.pos).take len
  (chunk, { fl with pos := fl.pos + chunk.length })

theorem zipSeekDiscard_spec :
    ∀ (remainder : Nat) (st : ZipHandle), st.pos + remainder ≤ st.content.length →
      zipSeekDiscard st remainder =
        { content := st.content, pos := st.pos + remainder, streamed := st.streamed } := by
  intro remainder
  induction remainder using Nat.strong_induction_on with
  | _ remainder ih =>
    intro st hle
    rw [zipSeekDiscard]
    by_cases hbig : PK3_SEEK_BUFFER_SIZE < remainder
    · rw [if_pos hbig]
      have hlen : ((st.content.drop st.pos).take PK3_SEEK_BUFFER_SIZE).length =
          PK3_SEEK_BUFFER_SIZE := by
        rw [List.length_take, List.length_drop]
        omega
      have hrec := ih (remainder - PK3_SEEK_BUFFER_SIZE)
        (by simp only [PK3_SEEK_BUFFER_SIZE] at *; omega)
        (unzReadCurrentFile st PK3_SEEK_BUFFER_SIZE).2
        (by simp [unzReadCurrentFile, hlen]; omega)
      rw [hrec]
      simp [unzReadCurrentFile, hlen]
      omega
    · rw [if_neg hbig]
      have hlen : ((st.content.drop st.pos).take remainder).length = remainder := by
        rw [List.length_take, List.length_drop]
        omega
      simp [unzReadCurrentFile, hlen]

/-- C6: on a zip-backed handle, (i) a negative offset is the fatal error;
(ii) origin FS_SEEK_END is the fatal error; (iii) FS_SEEK_SET reopens the
entry at its captured start offset, discards `offset` bytes forward through
the 65536-byte scratch-buffer loop, returns exactly `offset`, and leaves the
read position at `offset`, so that a subsequent read of any n bytes yields
the same bytes as a native fseek to `offset` on a loose copy of the same
content followed by a native fread of n bytes. -/
theorem C6_zip_seek_emulation (st : ZipHandle) (offset : Int) :
    (∀ origin, offset < 0 → FS_Seek_zip true st offset origin = .fatal) ∧
    (FS_Seek_zip true st offset fsOrigin.seekEnd = .fatal) ∧
    (0 ≤ offset → offset.toNat ≤ st.content.length →
      FS_Seek_zip true st offset fsOrigin.seekSet =
        .ok (offset, { content := st.content, pos := offset.toNat,
                       streamed := st.streamed }) ∧
      ∀ (n startPos : Nat),
        (unzReadCurrentFile { content := st.content, pos := offset.toNat,
                              streamed := st.streamed } n).1 =
        (fread_file (fseekSet { content := st.content, pos := startPos }
          offset.toNat) n).1) := by
  refine ⟨?_, ?_, ?_⟩
  · intro origin hneg
    have hbody : ∀ (st' : ZipHandle), fsSeekZipBody st' offset origin = .fatal := by
      intro st'
      simp [fsSeekZipBody, hneg]
    by_cases hs : st.streamed <;> simp [FS_Seek_zip, hs, hbody]
  · have hbody : ∀ (st' : ZipHandle),
        fsSeekZipBody st' offset fsOrigin.seekEnd = .fatal := by
      intro st'
      simp [fsSeekZipBody]
    by_cases hs : st.streamed <;> simp [FS_Seek_zip, hs, hbody]
  · intro hnn hle
    have hneg : ¬(offset < 0 ∨ fsOrigin.seekSet = fsOrigin.seekEnd) := by
      simp; omega
    have hbody : ∀ (st' : ZipHandle), st'.content = st.content →
        fsSeekZipBody st' offset fsOrigin.seekSet =
          .ok (offset, { content := st.content, pos := offset.toNat,
                         streamed := st'.streamed }) := by
      intro st' hc
      simp only [fsSeekZipBody, hneg, if_false]
      rw [zipSeekDiscard_spec offset.toNat (unzReopenAtStart st')
        (by simp [unzReopenAtStart, hc]; omega)]
      simp [unzReopenAtStart, hc]
    constructor
    · by_cases hs : st.streamed
      · simp only [FS_Seek_zip, Bool.true_eq_false, if_false, hs, if_true]
        rw [hbody { st with streamed := false } rfl]
        exact hbody _ rfl
      · simp only [FS_Seek_zip, Bool.true_eq_false, if_false, hs, if_false]
        have := hbody st rfl
        rw [this]
        simp [hs]
    · intro n startPos
      simp [unzReadCurrentFile, fread_file, fseekSet]

/-- C6 witness: a 12-byte entry, FS_SEEK_SET to offset 7 then reading 3 bytes
matches the native seek-and-read on a loose copy of the same content. -/
theorem C6_zip_seek_emulation_witness :
    FS_Seek_zip true ⟨[3, 1, 4, 1, 5, 9, 2, 6, 5, 3, 5, 8], 2, false⟩ 7
        fsOrigin.seekSet =
      .ok (7, ⟨[3, 1, 4, 1, 5, 9, 2, 6, 5, 3, 5, 8], 7, false⟩) ∧
    (unzReadCurrentFile ⟨[3, 1, 4, 1, 5, 9, 2, 6, 5, 3, 5, 8], 7, false⟩ 3).1 =
      (fread_file (fseekSet ⟨[3, 1, 4, 1, 5, 9, 2, 6, 5, 3, 5, 8], 0⟩ 7) 3).1 := by
  have h := (C6_zip_seek_emulation ⟨[3, 1, 4, 1, 5, 9, 2, 6, 5, 3, 5, 8], 2, false⟩
    7).2.2 (by decide) (by decide)
  exact ⟨h.1, h.2 3 0⟩

/-! ## FS_BuildOSPath (src/filesystem.c:344) and the server-local API -/

/-- FS_ReplaceSeparators: maps both slash flavors to the platform separator. -/
def FS_ReplaceSeparators (p : CStr) : CStr :=
  p.map (fun c => if c = '/' ∨ c = '\\' then PATH_SEP else c)

/-- Modelled from the spec: MAX_OSPATH from the missing platform header (256
on PC targets, matching the 256-character path limit the source's header
comment documents).  Com_sprintf truncates its output to size - 1. -/
def MAX_OSPATH : Nat := 256

/-- FS_BuildOSPath: substitutes fs_gamedir for an empty game string, formats
"/%s/%s" into a MAX_OSPATH buffer, fixes separators, and prepends the base
(the source's static flip-flop buffer only affects aliasing, not the value
of a single call's result). -/
def FS_BuildOSPath (base game qpath fs_gamedir : CStr) : CStr :=
  let g := if game = [] then fs_gamedir else game
  let temp := ('/' :: (g ++ '/' :: qpath)).take (MAX_OSPATH - 1)
  (base ++ FS_ReplaceSeparators temp).take (MAX_OSPATH - 1)

/-- FS_SV_HomeRemove: builds the OS path from the home root and the filename
(as the game component, with an empty qpath), chops the trailing separator,
and passes the result straight to the native remove — there is no
sanitization branch in the function.  Returns the argument given to remove
and remove's success. -/
def FS_SV_HomeRemove (fs_homepath fs_gamedir : CStr) (removeOk : CStr → Bool)
    (path : CStr) : CStr × Bool :=
  let ospath := (FS_BuildOSPath fs_homepath path [] fs_gamedir).dropLast
  (ospath, removeOk ospath)

/-- Observable outcome of FS_SV_FOpenFileRead: whether a fatal diagnostic was
raised (uninitialized use, or handle exhaustion inside the acquire), the
arguments passed to fopen in order, the handle returned through *fp, and the
function's return value (the file length on success, else 0). -/
structure SVOpenRead where
  fatal : Bool
  fopenCalls : List CStr
  handle : Nat
  ret : Int
deriving DecidableEq, Repr

/-- FS_SV_FOpenFileRead: fails fast before initialization; acquires a handle;
builds the home-root OS path from the filename (no sanitization), chops the
trailing separator and fopens it; when that fails and fs_homepath differs
from fs_basepath (Q_stricmp nonzero), retries with the base root; returns
the length (`flen`, the FS_filelength oracle) on success and 0 otherwise. -/
def FS_SV_FOpenFileRead (init : Bool) (M : Nat) (occ : Nat → Bool)
    (home base gamedir : CStr) (fopenOk : CStr → Bool) (flen : Int)
    (filename : CStr) : SVOpenRead :=
  if init = false then { fatal := true, fopenCalls := [], handle := 0, ret := 0 }
  else
    match FS_HandleForFile M occ with
    | none => { fatal := true, fopenCalls := [], handle := 0, ret := 0 }
    | some f =>
      let ospath1 := (FS_BuildOSPath home filename [] gamedir).dropLast
      if fopenOk ospath1 then
        { fatal := false, fopenCalls := [ospath1], handle := f, ret := flen }
      else if Q_stricmpEq home base = false then
        let ospath2 := (FS_BuildOSPath base filename [] gamedir).dropLast
        if fopenOk ospath2 then
          { fatal := false, fopenCalls := [ospath1, ospath2], handle := f, ret := flen }
        else
          { fatal := false, fopenCalls := [ospath1, ospath2], handle := 0, ret := 0 }
      else
        { fatal := false, fopenCalls := [ospath1], handle := 0, ret := 0 }

/-- C10: the server-local persisted-state operations apply no path
sanitization: for the filename "../../etc/passwd", FS_SV_HomeRemove passes
"/home/user/../../etc/passwd" (the ".." segments preserved) straight to the
native remove, and FS_SV_FOpenFileRead passes the same composed path straight
to the native fopen, with no rejection and no fatal diagnostic — a path that
addresses a file outside the home root. -/
theorem C10_sv_paths_unsanitized :
    (FS_SV_HomeRemove ((r"/home/user").toList) ((r"main").toList) (fun _ => true)
        ((r"../../etc/passwd").toList)).1 =
      ((r"/home/user/../../etc/passwd").toList) ∧
    hasSub ((r"/home/user/../../etc/passwd").toList) ['.', '.'] = true ∧
    (FS_SV_HomeRemove ((r"/home/user").toList) ((r"main").toList) (fun _ => true)
        ((r"../../etc/passwd").toList)).2 = true ∧
    (FS_SV_FOpenFileRead true 65 (fun _ => false) ((r"/home/user").toList)
        ((r"/base").toList) ((r"main").toList) (fun _ => true) 5
        ((r"../../etc/passwd").toList)).fopenCalls =
      [((r"/home/user/../../etc/passwd").toList)] ∧
    (FS_SV_FOpenFileRead true 65 (fun _ => false) ((r"/home/user").toList)
        ((r"/base").toList) ((r"main").toList) (fun _ => true) 5
        ((r"../../etc/passwd").toList)).fatal = false ∧
    (FS_SV_FOpenFileRead true 65 (fun _ => false) ((r"/home/user").toList)
        ((r"/base").toList) ((r"main").toList) (fun _ => true) 5
        ((r"../../etc/passwd").toList)).ret = 5 := by
  refine ⟨?_, by decide, ?_, ?_, ?_, ?_⟩ <;> rfl

/-! ## FS_ReadFile (src/filesystem.c:1174) and FS_WriteFile (src/filesystem.c:1220)

FS_FOpenFileRead and FS_FOpenFileWrite are declared in the missing header and
defined outside src/; they are modelled from the spec (resolve the qpath
across the search roots / resolve for write at the home-origin current-game
directory, creating missing directories through FS_CreatePath).  The
multi-root walk is embedded as a flat logical store keyed by qpath. -/

theorem scanFreeHandle_succ (occ : Nat → Bool) (i n : Nat) :
    scanFreeHandle occ i (n + 1) =
      if occ i = false then some i else scanFreeHandle occ (i + 1) n := rfl

theorem scanFreeHandle_ge (occ : Nat → Bool) :
    ∀ (fuel i h : Nat), scanFreeHandle occ i fuel = some h → i ≤ h := by
  intro fuel
  induction fuel with
  | zero => intro i h hgo; simp [scanFreeHandle] at hgo
  | succ n ih =>
    intro i h hgo
    rw [scanFreeHandle_succ] at hgo
    by_cases hc : occ i = false
    · rw [if_pos hc] at hgo
      have : i = h := by injection hgo
      omega
    · rw [if_neg hc] at hgo
      have := ih (i + 1) h hgo
      omega

theorem handleForFile_pos (M : Nat) (occ : Nat → Bool) (h : Nat)
    (hh : FS_HandleForFile M occ = some h) : 1 ≤ h :=
  scanFreeHandle_ge occ (M - 1) 1 h hh

/-- First-match lookup in the logical file store. -/
def lookupFile : List (CStr × List Nat) → CStr → Option (List Nat)
  | [], _ => none
  | (k, v) :: rest, p => if k == p then some v else lookupFile rest p

/-- The filesystem-wide context the whole-file API operates on: the
initialization flag (fs_searchpaths non-null), the configuration roots, the
logical store resolution walks, and the open slots of the handle table. -/
structure VfsState where
  initialized : Bool
  fs_homepath : CStr
  fs_gamedir : CStr
  files : List (CStr × List Nat)
  handles : List Nat
deriving DecidableEq, Repr

/-- FS_FCloseFile's effect on the handle table: the slot is zeroed
(Com_Memset), freeing the handle. -/
def FS_FCloseFile_model (st : VfsState) (h : Nat) : VfsState :=
  { st with handles := st.handles.erase h }

/-- Modelled from the spec: FS_FOpenFileRead (defined outside src/) fails
fast before initialization, resolves the qpath across the search roots
(embedded as the flat store), and on a hit acquires a handle via
FS_HandleForFile and returns the resolved length; a miss returns handle 0. -/
def FS_FOpenFileRead_model (M : Nat) (st : VfsState) (qpath : CStr) :
    FsResult (Nat × Nat × List Nat × VfsState) :=
  if st.initialized = false then .fatal
  else
    match lookupFile st.files qpath with
    | none => .ok (0, 0, [], st)
    | some content =>
      match FS_HandleForFile M (fun i => st.handles.contains i) with
      | none => .fatal
      | some h => .ok (content.length, h, content, { st with handles := h :: st.handles })

/-- Modelled from the spec: FS_FOpenFileWrite (defined outside src/) fails
fast before initialization, targets the home-origin current-game directory,
creates missing directories through FS_CreatePath (returning handle 0 when
that refuses), and acquires a handle; the native fopen is modelled as
succeeding. -/
def FS_FOpenFileWrite_model (M : Nat) (st : VfsState) (qpath : CStr) :
    FsResult (Nat × VfsState) :=
  if st.initialized = false then .fatal
  else
    match FS_HandleForFile M (fun i => st.handles.contains i) with
    | none => .fatal
    | some h =>
      if (FS_CreatePath (FS_BuildOSPath st.fs_homepath st.fs_gamedir qpath
          st.fs_gamedir)).result then .ok (0, st)
      else .ok (h, { st with handles := h :: st.handles })

/-- FS_ReadFile: an empty qpath is Com_Error; a failed resolution returns -1
with a NULL buffer; a NULL caller buffer just closes and returns the length;
otherwise malloc(len + 1) is filled by FS_Read, a trailing zero byte is
appended, the handle is closed and the length returned (the native reads
backing FS_Read on the resolved plain file are modelled as delivering the
stored content). -/
def FS_ReadFile (M : Nat) (st : VfsState) (qpath : CStr) (wantBuffer : Bool) :
    FsResult ((Int × Option (List Nat)) × VfsState) :=
  if qpath = [] then .fatal
  else
    match FS_FOpenFileRead_model M st qpath with
    | .fatal => .fatal
    | .ok (len, h, content, st1) =>
      if h = 0 then .ok ((-1, none), st1)
      else if wantBuffer = false then
        .ok (((len : Int), none), FS_FCloseFile_model st1 h)
      else
        .ok (((len : Int), some (content.take len ++ [0])), FS_FCloseFile_model st1 h)

/-- FS_WriteFile: fails fast before initialization; a NULL qpath or buffer is
Com_Error; a failed open is reported on the console and the call returns;
otherwise FS_Write stores the bytes and the handle is closed. -/
def FS_WriteFile (M : Nat) (st : VfsState) (qpath : Option CStr)
    (buffer : Option (List Nat)) : FsResult VfsState :=
  if st.initialized = false then .fatal
  else
    match qpath, buffer with
    | some q, some bytes =>
      match FS_FOpenFileWrite_model M st q with
      | .fatal => .fatal
      | .ok (h, st1) =>
        if h = 0 then .ok st1
        else .ok (FS_FCloseFile_model { st1 with files := (q, bytes) :: st1.files } h)
    | _, _ => .fatal

/-- C7: on an initialized context with a free handle slot and a qpath whose
home-root OS path passes FS_CreatePath, FS_WriteFile(q, bytes) stores the
bytes and frees its handle, and the subsequent FS_ReadFile(q) returns length
len(bytes) with a buffer of exactly len(bytes) + 1 allocated bytes — the
stored bytes followed by a zero byte at index len(bytes) — with the handle
closed afterwards (the handle table is exactly as before the call); and
whenever resolution fails FS_ReadFile returns -1 with a NULL buffer. -/
theorem C7_write_read_roundtrip (M : Nat) (home gamedir : CStr)
    (files : List (CStr × List Nat)) (handles : List Nat) (q : CStr)
    (bytes : List Nat) (hfree : Nat) (hq : q ≠ [])
    (hpath : (FS_CreatePath (FS_BuildOSPath home gamedir q gamedir)).result = false)
    (hacq : FS_HandleForFile M (fun i => handles.contains i) = some hfree) :
    FS_WriteFile M ⟨true, home, gamedir, files, handles⟩ (some q) (some bytes) =
      .ok ⟨true, home, gamedir, (q, bytes) :: files, handles⟩ ∧
    FS_ReadFile M ⟨true, home, gamedir, (q, bytes) :: files, handles⟩ q true =
      .ok (((bytes.length : Int), some (bytes ++ [0])),
        ⟨true, home, gamedir, (q, bytes) :: files, handles⟩) ∧
    (bytes ++ [0]).length = bytes.length + 1 ∧
    (∀ (st0 : VfsState) (p : CStr), st0.initialized = true → p ≠ [] →
      lookupFile st0.files p = none →
      FS_ReadFile M st0 p true = .ok ((-1, none), st0)) := by
  have hpos : 1 ≤ hfree := handleForFile_pos M _ hfree hacq
  have hfne : ¬(hfree = 0) := by omega
  refine ⟨?_, ?_, by simp, ?_⟩
  · simp only [FS_WriteFile, FS_FOpenFileWrite_model, FS_FCloseFile_model,
      Bool.true_eq_false, if_false, hacq, hpath, hfne]
    simp [List.erase_cons_head]
    try exact hfne
  · simp only [FS_ReadFile, hq, if_neg hq, FS_FOpenFileRead_model,
      Bool.true_eq_false, if_false, lookupFile, beq_self_eq_true, if_pos,
      hacq, hfne, FS_FCloseFile_model]
    simp [hq, hfne, List.erase_cons_head, List.take_length]
  · intro st0 p hinit0 hp hlook
    simp [FS_ReadFile, hp, FS_FOpenFileRead_model, hinit0, hlook]

/-- C7 witness: writing three bytes to "cfg/a.cfg" on an empty initialized
context and reading it back yields length 3 and the buffer 1,2,3,0 of four
allocated bytes, with the handle table back to empty. -/
theorem C7_write_read_roundtrip_witness :
    FS_WriteFile 65 ⟨true, ((r"/h").toList), ((r"main").toList), [], []⟩
        (some ((r"cfg/a.cfg").toList)) (some [1, 2, 3]) =
      .ok ⟨true, ((r"/h").toList), ((r"main").toList),
        [(((r"cfg/a.cfg").toList), [1, 2, 3])], []⟩ ∧
    FS_ReadFile 65 ⟨true, ((r"/h").toList), ((r"main").toList),
        [(((r"cfg/a.cfg").toList), [1, 2, 3])], []⟩ ((r"cfg/a.cfg").toList) true =
      .ok ((3, some [1, 2, 3, 0]),
        ⟨true, ((r"/h").toList), ((r"main").toList),
          [(((r"cfg/a.cfg").toList), [1, 2, 3])], []⟩) := by
  have h := C7_write_read_roundtrip 65 ((r"/h").toList) ((r"main").toList) [] []
    ((r"cfg/a.cfg").toList) [1, 2, 3] 1 (by decide) (by decide) (by decide)
  exact ⟨h.1, h.2.1⟩

/-! ## Initialization fail-fast across the boundary API (C9)

FS_FTell (src/filesystem.c:831) and FS_Flush (src/filesystem.c:837) are the
two boundary entry points whose bodies contain no fs_searchpaths check: they
go straight to the native ftell/fflush.  Every other modelled entry point
checks first. -/

/-- FS_SV_FOpenFileWrite: fails fast before initialization; builds and chops
the home-root OS path, acquires a handle, refuses via FS_CreatePath
(returning 0 with no fopen call), otherwise fopens for writing.  Returns the
handle and the fopen call trace. -/
def FS_SV_FOpenFileWrite (init : Bool) (M : Nat) (occ : Nat → Bool)
    (home gamedir : CStr) (fopenOk : CStr → Bool) (filename : CStr) :
    FsResult (Nat × List CStr) :=
  if init = false then .fatal
  else
    let ospath := (FS_BuildOSPath home filename [] gamedir).dropLast
    match FS_HandleForFile M occ with
    | none => .fatal
    | some f =>
      if (FS_CreatePath ospath).result then .ok (0, [])
      else if fopenOk ospath then .ok (f, [ospath]) else .ok (0, [ospath])

/-- FS_SV_FOpenFileAppend: identical control flow to the write variant with
the native stream opened in append mode. -/
def FS_SV_FOpenFileAppend (init : Bool) (M : Nat) (occ : Nat → Bool)
    (home gamedir : CStr) (fopenOk : CStr → Bool) (filename : CStr) :
    FsResult (Nat × List CStr) :=
  if init = false then .fatal
  else
    let ospath := (FS_BuildOSPath home filename [] gamedir).dropLast
    match FS_HandleForFile M occ with
    | none => .fatal
    | some f =>
      if (FS_CreatePath ospath).result then .ok (0, [])
      else if fopenOk ospath then .ok (f, [ospath]) else .ok (0, [ospath])

/-- FS_FTell: the body is only `pos = ftell(...); return pos;` — the
initialized flag is accepted but never consulted, exactly as the source
performs no fs_searchpaths check; `ftellResult` is the native oracle. -/
def FS_FTell (initialized : Bool) (f : Nat) (ftellResult : Int) : FsResult Int :=
  .ok ftellResult

/-- FS_Flush: the body is only `fflush(...)` — again no fs_searchpaths
check before the native call. -/
def FS_Flush (initialized : Bool) (f : Nat) : FsResult Unit :=
  .ok ()

/-- C9 counterexample: called before initialization, FS_FTell performs the
native ftell and returns its result — it does not raise the fatal
uninitialized-use error the claim asserts for every entry point — and
FS_Flush likewise performs the native fflush. -/
theorem C9_tell_flush_unchecked_counterexample :
    FS_FTell false 1 7 = .ok 7 ∧
    FS_FTell false 1 7 ≠ FsResult.fatal ∧
    FS_Flush false 1 = .ok () := by
  refine ⟨rfl, ?_, rfl⟩
  simp [FS_FTell]

/-- C9 (amended): every modelled boundary entry point except tell and flush —
open-for-read/write/append (server-local variants), read, write, seek,
read-entire, write-entire — raises the fatal uninitialized-use error before
performing any I/O when called while fs_searchpaths is unset; FS_FTell and
FS_Flush omit the check and pass straight through to the native
operation. -/
theorem C9_uninitialized_fatal_amended :
    (∀ (M : Nat) (occ : Nat → Bool) (home gamedir : CStr) (fopenOk : CStr → Bool)
      (fn : CStr), FS_SV_FOpenFileWrite false M occ home gamedir fopenOk fn = .fatal) ∧
    (∀ (M : Nat) (occ : Nat → Bool) (home base gamedir : CStr) (fopenOk : CStr → Bool)
      (flen : Int) (fn : CStr),
      FS_SV_FOpenFileRead false M occ home base gamedir fopenOk flen fn =
        { fatal := true, fopenCalls := [], handle := 0, ret := 0 }) ∧
    (∀ (M : Nat) (occ : Nat → Bool) (home gamedir : CStr) (fopenOk : CStr → Bool)
      (fn : CStr), FS_SV_FOpenFileAppend false M occ home gamedir fopenOk fn = .fatal) ∧
    (∀ (f : Nat) (zip : Bool) (zr len : Int) (script : List Int),
      FS_Read false f zip zr len script = .fatal) ∧
    (∀ (M : Nat) (fsh : Nat → Option Unit) (h : Nat) (sync : Bool) (len : Int)
      (script : List Int), FS_Write false M fsh h sync len script = .fatal) ∧
    (∀ (st : ZipHandle) (offset : Int) (origin : fsOrigin),
      FS_Seek_zip false st offset origin = .fatal) ∧
    (∀ (M : Nat) (st : VfsState) (q : CStr) (b : Bool), st.initialized = false →
      FS_ReadFile M st q b = .fatal) ∧
    (∀ (M : Nat) (st : VfsState) (qp : Option CStr) (buf : Option (List Nat)),
      st.initialized = false → FS_WriteFile M st qp buf = .fatal) ∧
    (∀ (f : Nat) (p : Int), FS_FTell false f p = .ok p) ∧
    (∀ (f : Nat), FS_Flush false f = .ok ()) := by
  refine ⟨fun _ _ _ _ _ _ => rfl, fun _ _ _ _ _ _ _ _ => rfl,
    fun _ _ _ _ _ _ => rfl, fun _ _ _ _ _ => rfl, fun _ _ _ _ _ _ => rfl,
    fun _ _ _ => rfl, ?_, ?_, fun _ _ => rfl, fun _ => rfl⟩
  · intro M st q b hinit
    by_cases hq : q = [] <;>
      simp [FS_ReadFile, hq, FS_FOpenFileRead_model, hinit]
  · intro M st qp buf hinit
    simp [FS_WriteFile, hinit]

/-- C9 witness: the amended theorem evaluated at concrete uninitialized
calls. -/
theorem C9_uninitialized_fatal_amended_witness :
    FS_SV_FOpenFileWrite false 65 (fun _ => false) ((r"/h").toList)
      ((r"main").toList) (fun _ => true) ((r"a.cfg").toList) = .fatal ∧
    FS_Read false 1 false 0 5 [5] = .fatal ∧
    FS_ReadFile 65 ⟨false, [], [], [], []⟩ ((r"a.cfg").toList) true = .fatal ∧
    FS_FTell false 1 7 = .ok 7 :=
  ⟨C9_uninitialized_fatal_amended.1 65 (fun _ => false) ((r"/h").toList)
      ((r"main").toList) (fun _ => true) ((r"a.cfg").toList),
    C9_uninitialized_fatal_amended.2.2.2.1 1 false 0 5 [5],
    C9_uninitialized_fatal_amended.2.2.2.2.2.2.1 65 ⟨false, [], [], [], []⟩
      ((r"a.cfg").toList) true rfl,
    C9_uninitialized_fatal_amended.2.2.2.2.2.2.2.2.1 1 7⟩
